import Mathlib

/-!
Verification development for the adaptive policy-learning subsystem of the
repository (source file `adaptive_rl_engine.py`, class `AdaptiveRLEngine`).

Modelling conventions of the shallow embedding:
* Python floats are modelled as rationals (`ℚ`); all constants of the source
  (0.1, 0.8, 0.3, 0.6, 0.5, 0.2) are exact rationals, so the arithmetic of the
  source is reproduced exactly.
* Python `dict` / `collections.defaultdict` values are modelled as association
  lists (`List (String × α)`) preserving insertion order: writing an existing
  key replaces its value in place, writing a fresh key appends at the end,
  exactly as a Python dict.  Subscripting a `defaultdict` inserts the default
  for a missing key (`alIndexD` below returns the possibly-extended dict
  together with the value read), mirroring auto-vivification.
* The `deque(maxlen=1000)` of recent interactions is a list with eviction from
  the front on overflow (most recent element last).
* Wall-clock time enters only through `datetime.now().hour` in
  `get_state_features`; the hour is passed as an explicit argument.
* The external base classifier (`intent_classifier.predict_intent`) and the
  two draws of `np.random` in `get_enhanced_intent` are inputs of the
  embedding (base intent/confidence, the epsilon draw, and the random index).
* File I/O (`interactions.jsonl`, the feedback file) is modelled by in-memory
  append-only logs carried in the engine state; pickling in
  `save_model`/`load_model` is the identity on the captured data.
-/

namespace Production

/-- Prefix test on character lists (helper for the substring test). -/
def listPrefixOf : List Char → List Char → Bool
  | [], _ => true
  | _ :: _, [] => false
  | a :: as, b :: bs => a == b && listPrefixOf as bs

/-- Substring occurrence test on character lists. -/
def listSubstr (pat : List Char) : List Char → Bool
  | [] => listPrefixOf pat []
  | b :: bs => listPrefixOf pat (b :: bs) || listSubstr pat bs

/-- Models the Python expression `w in s` for strings (substring test). -/
def strContains (s w : String) : Bool :=
  listSubstr w.toList s.toList

/-- Lexicographic comparison of character lists by code point, as Python
string comparison does. -/
def charListLe : List Char → List Char → Bool
  | [], _ => true
  | _ :: _, [] => false
  | a :: as, b :: bs => if a < b then true else if a == b then charListLe as bs else false

/-- String comparison used by `pySorted`. -/
def strLeB (a b : String) : Bool :=
  charListLe a.toList b.toList

/-- Stable insertion of a string into a sorted list (helper for `pySorted`). -/
def insertSorted (x : String) : List String → List String
  | [] => [x]
  | y :: ys => if strLeB x y then x :: y :: ys else y :: insertSorted x ys

/-- Models Python `sorted` on a list of strings (stable, ascending). -/
def pySorted : List String → List String
  | [] => []
  | x :: xs => insertSorted x (pySorted xs)

/-- Accumulating splitter over characters (helper for `pySplitWS`);
the accumulator holds the current word reversed. -/
def splitWSAux : List Char → List Char → List String
  | [], cur => if cur = [] then [] else [String.mk cur.reverse]
  | c :: cs, cur =>
    if c.isWhitespace then
      (if cur = [] then [] else [String.mk cur.reverse]) ++ splitWSAux cs []
    else splitWSAux cs (c :: cur)

/-- Models Python `str.split()` with no argument: split on whitespace runs,
dropping empty pieces. -/
def pySplitWS (s : String) : List String :=
  splitWSAux s.toList []

/-- Models Python `str.lower()` character by character. -/
def pyLower (s : String) : String :=
  String.mk (s.toList.map Char.toLower)

/-- Models `numpy.mean` on a list of booleans as used by the source
(`True` counts as 1).  The empty list is never averaged through the modelled
code paths because the success-history key exists only after an append. -/
def pyMean (l : List Bool) : ℚ :=
  (l.countP (fun b => b) : ℚ) / (l.length : ℚ)

/-- Models the Python slice `l[-n:]` (the last at most `n` elements). -/
def lastN (n : ℕ) (l : List α) : List α :=
  l.drop (l.length - n)

/-- Dict lookup on an association list (first occurrence of the key). -/
def alGet {α : Type} (d : List (String × α)) (k : String) : Option α :=
  match d with
  | [] => none
  | p :: rest => if p.1 = k then some p.2 else alGet rest k

/-- Models the Python membership test `k in d`. -/
def alMem {α : Type} (d : List (String × α)) (k : String) : Bool :=
  (alGet d k).isSome

/-- Dict assignment `d[k] = v`: replaces the value of an existing key in
place, appends a fresh key at the end (Python dict insertion order). -/
def alSet {α : Type} (d : List (String × α)) (k : String) (v : α) : List (String × α) :=
  match d with
  | [] => [(k, v)]
  | p :: rest => if p.1 = k then (k, v) :: rest else p :: alSet rest k v

/-- `defaultdict` subscript `d[k]`: returns the stored value, or inserts and
returns the default for a missing key (auto-vivification).  The first
component is the possibly-extended dict. -/
def alIndexD {α : Type} (d : List (String × α)) (k : String) (dflt : α) :
    List (String × α) × α :=
  match alGet d k with
  | some v => (d, v)
  | none => (d ++ [(k, dflt)], dflt)

/-- Pure nested lookup `d[s][a]` with defaults, used to observe the nested
default-dicts (default inner dict empty, default value `dflt`). -/
def nestGet {α : Type} (d : List (String × List (String × α))) (s a : String) (dflt : α) : α :=
  (alGet ((alGet d s).getD []) a).getD dflt

/-- Models the nested `defaultdict` read `d[s][a]`: both levels
auto-vivify; returns the updated outer dict and the value. -/
def nestIndex {α : Type} (d : List (String × List (String × α))) (s a : String) (dflt : α) :
    List (String × List (String × α)) × α :=
  let o := alIndexD d s []
  let i := alIndexD o.2 a dflt
  (alSet o.1 s i.1, i.2)

/-- Models the nested `defaultdict` write `d[s][a] = v` (the outer level
auto-vivifies, then the inner assignment runs). -/
def nestSet {α : Type} (d : List (String × List (String × α))) (s a : String) (v : α) :
    List (String × List (String × α)) :=
  let o := alIndexD d s []
  alSet o.1 s (alSet o.2 a v)

/-- An interaction record as built by `AdaptiveRLEngine.log_interaction`
(lines 140-149 of the source).  `interaction_id` is carried because
`record_feedback` line 166 reads it with `.get`; `log_interaction` never sets
it, so it is `none` for records created by the modelled code. -/
structure Interaction where
  timestamp : String
  command : String
  intent : String
  result : String
  user_id : String
  state : String
  success : Option Bool
  feedback_score : Option Int
  interaction_id : Option String
deriving DecidableEq

/-- The entry appended to the durable feedback file by `record_feedback`
lines 189-196 (the wall-clock timestamp is outside the model). -/
structure FeedbackEntry where
  command : String
  intent : String
  rating : Int
  user_id : String
  state : String
deriving DecidableEq

/-- Outcome of a feedback submission.  The source signals the two failure
branches by an early `return` after a warning log (lines 158-160 and
170-172); the spec names them `InvalidRating` and `NotFound`. -/
inductive FeedbackResult where
  | ok
  | invalidRating
  | notFound
deriving DecidableEq

/-- The mutable state of `AdaptiveRLEngine` (constructor lines 16-41):
the Q-table and visit counters (nested default-dicts), the bounded-recency
interaction buffer, the per-intent success histories, the per-user
preference table, the tunable rates, and the two durable append-only logs. -/
structure AdaptiveRLEngine where
  learning_rate : ℚ
  epsilon : ℚ
  q_table : List (String × List (String × ℚ))
  state_action_counts : List (String × List (String × ℕ))
  recent_interactions : List Interaction
  intent_success_rates : List (String × List Bool)
  user_preferences : List (String × List (String × List Int))
  feedback_log : List FeedbackEntry
  interactions_log : List Interaction
deriving DecidableEq

/-- A freshly constructed engine with the default parameters
(`learning_rate=0.1`, `epsilon=0.1`) and no persisted state. -/
def freshEngine : AdaptiveRLEngine where
  learning_rate := 1/10
  epsilon := 1/10
  q_table := []
  state_action_counts := []
  recent_interactions := []
  intent_success_rates := []
  user_preferences := []
  feedback_log := []
  interactions_log := []

/-- Embeds `AdaptiveRLEngine.get_state_features` (source lines 43-84).
`hour` is `datetime.now().hour`; `context` is the optional context dict
(`has_datetime`, `has_recipients`). -/
def get_state_features (command : String) (hour : ℕ) (context : Option (Bool × Bool)) : String :=
  let cmd_len := (pySplitWS command).length
  let lenTag := if cmd_len ≤ 3 then "short" else if cmd_len ≤ 7 then "medium" else "long"
  let timeTag :=
    if 6 ≤ hour ∧ hour < 12 then "morning"
    else if 12 ≤ hour ∧ hour < 18 then "afternoon"
    else if 18 ≤ hour ∧ hour < 22 then "evening"
    else "night"
  let lower := pyLower command
  let topicTags :=
    if ["schedule", "meeting", "event"].any (fun w => strContains lower w) then ["calendar"]
    else if ["email", "send", "mail"].any (fun w => strContains lower w) then ["email"]
    else if ["search", "find", "google"].any (fun w => strContains lower w) then ["search"]
    else if ["open", "run", "launch"].any (fun w => strContains lower w) then ["app"]
    else []
  let contextTags :=
    match context with
    | some c => (if c.1 then ["time_specific"] else []) ++ (if c.2 then ["multi_user"] else [])
    | none => []
  let features := [lenTag, timeTag] ++ topicTags ++ contextTags
  String.intercalate "|" (pySorted features)

/-- The fixed intent enumeration of `get_enhanced_intent` lines 103-104. -/
def possible_intents : List String :=
  ["calendar_event", "send_email", "web_search", "launch_app",
   "rag_query", "file_manage", "calendar_list", "workflow_trigger"]

/-- Models Python `max(items, key=lambda x: x[1])`: the first entry with the
maximal second component (Python `max` keeps the earlier element on ties). -/
def maxBySnd (x : String × ℚ) (xs : List (String × ℚ)) : String × ℚ :=
  xs.foldl (fun acc y => if y.2 > acc.2 then y else acc) x

/-- The RL candidate computed inside `get_enhanced_intent` (source lines
95-117): if the state is unseen the candidate falls back to the base
prediction; otherwise an epsilon draw picks exploration (random intent,
confidence 0.5) or exploitation (argmax of the state's Q-values, confidence
0.8, falling back to base when the inner dict is empty).  The first component
is the q_table after the `self.q_table[state]` subscript (a no-op on the
observable table since the branch requires membership). -/
def rl_candidate (eng : AdaptiveRLEngine) (state base_intent : String)
    (base_confidence : ℚ) (randomDraw : ℚ) (randomChoice : ℕ) :
    List (String × List (String × ℚ)) × String × ℚ :=
  if alMem eng.q_table state then
    let qv := alIndexD eng.q_table state []
    (qv.1,
      if randomDraw < eng.epsilon then
        (possible_intents.getD (randomChoice % possible_intents.length) "", (1/2 : ℚ))
      else
        match qv.2 with
        | [] => (base_intent, base_confidence)
        | p :: rest => ((maxBySnd p rest).1, (4/5 : ℚ)))
  else (eng.q_table, base_intent, base_confidence)

/-- Embeds `AdaptiveRLEngine.get_enhanced_intent` (source lines 86-136).
The base prediction of the external classifier and the two random draws are
explicit inputs; the result is the engine state after the call together with
the `(final_intent, final_confidence)` pair of lines 119-136. -/
def get_enhanced_intent (eng : AdaptiveRLEngine) (command : String) (hour : ℕ)
    (base_intent : String) (base_confidence : ℚ) (randomDraw : ℚ) (randomChoice : ℕ) :
    AdaptiveRLEngine × String × ℚ :=
  let state := get_state_features command hour none
  let rl := rl_candidate eng state base_intent base_confidence randomDraw randomChoice
  let final :=
    if base_confidence > 4/5 then (base_intent, base_confidence)
    else if base_confidence < 3/10 ∧ rl.2.2 > 3/5 then rl.2
    else (base_intent, base_confidence)
  ({ eng with q_table := rl.1 }, final)

/-- Embeds `AdaptiveRLEngine.log_interaction` (source lines 138-154): builds
the interaction record, appends it to the bounded deque (capacity 1000,
oldest evicted first) and to the durable interaction log. -/
def log_interaction (eng : AdaptiveRLEngine) (command intent result user_id : String)
    (hour : ℕ) (timestamp : String) : AdaptiveRLEngine :=
  let interaction : Interaction :=
    { timestamp := timestamp, command := command, intent := intent, result := result
      user_id := user_id, state := get_state_features command hour none
      success := none, feedback_score := none, interaction_id := none }
  let appended := eng.recent_interactions ++ [interaction]
  { eng with
    recent_interactions := appended.drop (appended.length - 1000)
    interactions_log := eng.interactions_log ++ [interaction] }

/-- Clamp to `[-1, 1]`, the final step of `calculate_reward` (line 244
`max(-1.0, min(1.0, total_reward))`). -/
def clampUnit (x : ℚ) : ℚ :=
  max (-1) (min 1 x)

/-- The reward of `AdaptiveRLEngine.calculate_reward` (source lines 220-243)
before the final clamp: feedback base `(rating - 3) / 2` when a rating is
present, plus the success-rate bonus `(mean(last 10) - 0.5) * 0.2` when the
intent has a success history, plus the exploration bonus
`1 / (1 + visit_count) * 0.1`. -/
def reward_before_clamp (eng : AdaptiveRLEngine) (interaction : Interaction) : ℚ :=
  let base0 : ℚ :=
    match interaction.feedback_score with
    | some rating => ((rating : ℚ) - 3) / 2
    | none => 0
  let base1 : ℚ :=
    if alMem eng.intent_success_rates interaction.intent then
      let success_rate := pyMean (lastN 10 ((alGet eng.intent_success_rates interaction.intent).getD []))
      base0 + (success_rate - 1/2) * (1/5)
    else base0
  let visit_count := (nestIndex eng.state_action_counts interaction.state interaction.intent 0).2
  let exploration_bonus : ℚ := 1 / (1 + (visit_count : ℚ)) * (1/10)
  base1 + exploration_bonus

/-- Embeds `AdaptiveRLEngine.calculate_reward` (source lines 220-244).
The first component is the engine after the call: the subscript
`self.state_action_counts[state][action]` on line 240 auto-vivifies the
visit-counter entry (with count 0) when it is missing; the second component
is the clamped reward. -/
def calculate_reward (eng : AdaptiveRLEngine) (interaction : Interaction) :
    AdaptiveRLEngine × ℚ :=
  ({ eng with state_action_counts :=
      (nestIndex eng.state_action_counts interaction.state interaction.intent 0).1 },
   clampUnit (reward_before_clamp eng interaction))

/-- The update rule of `update_q_value` line 212:
`new_q = current_q + learning_rate * (reward - current_q)`. -/
def q_update (current_q learning_rate reward : ℚ) : ℚ :=
  current_q + learning_rate * (reward - current_q)

/-- Iterating the update rule `n` times with a fixed reward `r`
(the repeated-feedback scenario of the spec's convergence property). -/
def q_iter (v0 lr r : ℚ) : ℕ → ℚ
  | 0 => v0
  | n + 1 => q_update (q_iter v0 lr r n) lr r

/-- Embeds `AdaptiveRLEngine.update_q_value` (source lines 202-218): computes
the reward (which may vivify a counter entry), reads the current Q-value
(vivifying the table entry), writes the updated value, and increments the
visit count for the `(state, action)` pair. -/
def update_q_value (eng : AdaptiveRLEngine) (interaction : Interaction) : AdaptiveRLEngine :=
  let state := interaction.state
  let action := interaction.intent
  let cr := calculate_reward eng interaction
  let eng1 := cr.1
  let reward := cr.2
  let qi := nestIndex eng1.q_table state action 0
  let new_q := q_update qi.2 eng1.learning_rate reward
  let qt2 := nestSet qi.1 state action new_q
  let ci := nestIndex eng1.state_action_counts state action 0
  let c2 := nestSet ci.1 state action (ci.2 + 1)
  { eng1 with q_table := qt2, state_action_counts := c2 }

/-- The predicate of the feedback-resolution scan (source lines 165-166):
exact command-text equality or explicit interaction id equality. -/
def matchesFeedback (i : Interaction) (arg : String) : Bool :=
  i.command == arg || i.interaction_id == some arg

/-- The resolution scan of `record_feedback` lines 162-168: iterate the
recency buffer from most recent to oldest and return the first match. -/
def find_target (l : List Interaction) (arg : String) : Option Interaction :=
  l.reverse.find? (fun i => matchesFeedback i arg)

/-- The in-place mutation of the resolved interaction (lines 174-176 of the
source): set the feedback score and the success flag (`rating >= 3`). -/
def feedback_update (rating : Int) (t : Interaction) : Interaction :=
  { t with feedback_score := some rating, success := some (decide (3 ≤ rating)) }

/-- Scanning from most recent to oldest, applies `f` in place to the first
matching interaction; returns the updated buffer together with the updated
record, or `none` when no interaction matches.  This combines the resolution
scan (lines 162-168) with the in-place dict mutation of the target. -/
def apply_to_last_match (l : List Interaction) (arg : String) (f : Interaction → Interaction) :
    Option (List Interaction × Interaction) :=
  match l with
  | [] => none
  | i :: rest =>
    match apply_to_last_match rest arg f with
    | some r => some (i :: r.1, r.2)
    | none => if matchesFeedback i arg then some (f i :: rest, f i) else none

/-- The success path of `record_feedback` (source lines 174-198) once the
target interaction has been resolved and mutated: Q-update, success-history
append, user-preference append, and durable feedback-log append. -/
def record_feedback_apply (eng : AdaptiveRLEngine) (rating : Int) (user_id : String)
    (buf : List Interaction) (target : Interaction) : AdaptiveRLEngine :=
  let eng1 := { eng with recent_interactions := buf }
  let eng2 := update_q_value eng1 target
  let intent := target.intent
  let newHistory := ((alGet eng2.intent_success_rates intent).getD []) ++ [decide (3 ≤ rating)]
  let eng3 := { eng2 with intent_success_rates := alSet eng2.intent_success_rates intent newHistory }
  let up := alIndexD eng3.user_preferences user_id []
  let newRatings := ((alGet up.2 intent).getD []) ++ [rating]
  let eng4 := { eng3 with user_preferences := alSet up.1 user_id (alSet up.2 intent newRatings) }
  let entry : FeedbackEntry :=
    { command := target.command, intent := target.intent, rating := rating
      user_id := user_id, state := target.state }
  { eng4 with feedback_log := eng4.feedback_log ++ [entry] }

/-- Embeds `AdaptiveRLEngine.record_feedback` (source lines 156-200): reject
ratings outside `[1, 5]` untouched; resolve the target by the most-recent
scan, rejecting untouched when nothing matches; otherwise mutate the target
in place and run the success path. -/
def record_feedback (eng : AdaptiveRLEngine) (command_or_id : String) (rating : Int)
    (user_id : String) : AdaptiveRLEngine × FeedbackResult :=
  if ¬ (1 ≤ rating ∧ rating ≤ 5) then (eng, FeedbackResult.invalidRating)
  else
    match apply_to_last_match eng.recent_interactions command_or_id (feedback_update rating) with
    | none => (eng, FeedbackResult.notFound)
    | some r => (record_feedback_apply eng rating user_id r.1 r.2, FeedbackResult.ok)

/-- The persisted snapshot assembled by `save_model` (source lines 336-343). -/
structure ModelData where
  q_table : List (String × List (String × ℚ))
  state_action_counts : List (String × List (String × ℕ))
  intent_success_rates : List (String × List Bool)
  user_preferences : List (String × List (String × List Int))
  learning_rate : ℚ
  epsilon : ℚ
deriving DecidableEq

/-- Embeds `AdaptiveRLEngine.save_model` (source lines 334-350): capture the
four learned structures and the two rates (pickling is the identity on the
captured data). -/
def save_model (eng : AdaptiveRLEngine) : ModelData where
  q_table := eng.q_table
  state_action_counts := eng.state_action_counts
  intent_success_rates := eng.intent_success_rates
  user_preferences := eng.user_preferences
  learning_rate := eng.learning_rate
  epsilon := eng.epsilon

/-- Embeds `AdaptiveRLEngine.load_model` (source lines 352-386): rebuild each
structure from fresh default-dicts by iterating the snapshot entries in order
(`self.q_table[state][action] = value` for the two nested tables, whole-list
assignment for the success histories and user preferences). -/
def load_model (eng : AdaptiveRLEngine) (md : ModelData) : AdaptiveRLEngine :=
  { eng with
    q_table := md.q_table.foldl
      (fun ac p => p.2.foldl (fun ac2 q => nestSet ac2 p.1 q.1 q.2) ac) [],
    state_action_counts := md.state_action_counts.foldl
      (fun ac p => p.2.foldl (fun ac2 q => nestSet ac2 p.1 q.1 q.2) ac) [],
    intent_success_rates := md.intent_success_rates.foldl
      (fun ac p => alSet ac p.1 p.2) [],
    user_preferences := md.user_preferences.foldl
      (fun ac p => alSet ac p.1 p.2) [],
    learning_rate := md.learning_rate,
    epsilon := md.epsilon }

/-! ## Concrete scenario data used by witnesses and counterexamples -/

/-- The command of the end-to-end scenario of spec section 8. -/
def c1_command : String := "schedule meeting tomorrow at 4pm"

/-- The state key the Feature Extractor derives for the scenario command at
hour 15: five words (medium), afternoon, calendar topic. -/
def c1_state : String := "afternoon|calendar|medium"

/-- The engine after the scenario decision has been logged on a fresh store. -/
def c1_eng : AdaptiveRLEngine :=
  log_interaction freshEngine c1_command "calendar_event" "scheduled" "default" 15 "t0"

/-- The scenario interaction record as logged (before feedback). -/
def c1_interaction : Interaction :=
  { timestamp := "t0", command := c1_command, intent := "calendar_event"
    result := "scheduled", user_id := "default", state := c1_state
    success := none, feedback_score := none, interaction_id := none }

/-- First decision of the recency scenario (intent A). -/
def c6_iA : Interaction :=
  { timestamp := "t1", command := "play music", intent := "web_search"
    result := "r1", user_id := "default", state := "night|short"
    success := none, feedback_score := none, interaction_id := none }

/-- Second decision of the recency scenario (intent B, most recent). -/
def c6_iB : Interaction :=
  { timestamp := "t2", command := "play music", intent := "launch_app"
    result := "r2", user_id := "default", state := "night|short"
    success := none, feedback_score := none, interaction_id := none }

/-- Engine holding the two recency-scenario decisions, oldest first. -/
def c6_eng : AdaptiveRLEngine :=
  { freshEngine with recent_interactions := [c6_iA, c6_iB] }

/-- A single logged interaction for the write-once scenario. -/
def c8_i0 : Interaction :=
  { timestamp := "t0", command := "check my mail", intent := "send_email"
    result := "ok", user_id := "default", state := "email|night|short"
    success := none, feedback_score := none, interaction_id := none }

/-- Engine holding the write-once-scenario interaction. -/
def c8_eng : AdaptiveRLEngine :=
  { freshEngine with recent_interactions := [c8_i0] }

/-- A logged interaction used by the pre-state reward witness. -/
def c10_i0 : Interaction :=
  { timestamp := "t0", command := "find a recipe", intent := "web_search"
    result := "ok", user_id := "default", state := "night|search|short"
    success := none, feedback_score := none, interaction_id := none }

/-- Engine holding the pre-state-reward-scenario interaction. -/
def c10_eng : AdaptiveRLEngine :=
  { freshEngine with recent_interactions := [c10_i0] }

/-- A Value Store with three states and two actions each, for the round-trip
witness. -/
def c5_eng : AdaptiveRLEngine :=
  { freshEngine with
    q_table := [("s1", [("a1", 1/2), ("a2", -1/4)]),
                ("s2", [("a1", 3/10), ("a2", 1/5)]),
                ("s3", [("a1", 0), ("a2", 1)])],
    state_action_counts := [("s1", [("a1", 2), ("a2", 1)]),
                            ("s2", [("a1", 4), ("a2", 0)]),
                            ("s3", [("a1", 1), ("a2", 7)])] }

/-! ## Lemmas about the dictionary operations -/

theorem alGet_alSet_self {α : Type} (d : List (String × α)) (k : String) (v : α) :
    alGet (alSet d k v) k = some v := by
  induction d with
  | nil => simp [alSet, alGet]
  | cons p rest ih =>
    by_cases h : p.1 = k
    · simp [alSet, h, alGet]
    · simp [alSet, h, alGet, ih]

theorem alGet_alSet_ne {α : Type} (d : List (String × α)) (k k' : String) (v : α)
    (h : k' ≠ k) : alGet (alSet d k v) k' = alGet d k' := by
  have hne : k ≠ k' := Ne.symm h
  induction d with
  | nil => simp [alSet, alGet, hne]
  | cons p rest ih =>
    by_cases hp : p.1 = k
    · subst hp
      simp [alSet, alGet, hne]
    · simp [alSet, hp, alGet, ih]

theorem alIndexD_fst_of_mem {α : Type} (d : List (String × α)) (k : String) (dflt : α)
    (h : alMem d k = true) : (alIndexD d k dflt).1 = d := by
  cases hg : alGet d k with
  | none => simp [alMem, hg] at h
  | some v => simp [alIndexD, hg]

theorem alIndexD_snd {α : Type} (d : List (String × α)) (k : String) (dflt : α) :
    (alIndexD d k dflt).2 = (alGet d k).getD dflt := by
  cases hg : alGet d k with
  | none => simp [alIndexD, hg]
  | some v => simp [alIndexD, hg]

theorem alGet_append_left {α : Type} (d1 d2 : List (String × α)) (k : String) (w : α)
    (h : alGet d1 k = some w) : alGet (d1 ++ d2) k = some w := by
  induction d1 with
  | nil => simp [alGet] at h
  | cons p rest ih =>
    by_cases hp : p.1 = k
    · simp [alGet, hp] at h ⊢; exact h
    · simp [alGet, hp] at h ⊢; exact ih h

theorem alGet_append_right {α : Type} (d1 d2 : List (String × α)) (k : String)
    (h : alGet d1 k = none) : alGet (d1 ++ d2) k = alGet d2 k := by
  induction d1 with
  | nil => simp
  | cons p rest ih =>
    by_cases hp : p.1 = k
    · simp [alGet, hp] at h
    · simp [alGet, hp] at h ⊢; exact ih h

theorem alGet_alIndexD_fst_self {α : Type} (d : List (String × α)) (k : String) (dflt : α) :
    alGet ((alIndexD d k dflt).1) k = some ((alGet d k).getD dflt) := by
  cases hg : alGet d k with
  | none =>
    simp only [alIndexD, hg]
    rw [alGet_append_right _ _ _ hg]
    simp [alGet]
  | some v => simp [alIndexD, hg]

theorem alGet_alIndexD_fst_ne {α : Type} (d : List (String × α)) (k k' : String) (dflt : α)
    (h : k' ≠ k) : alGet ((alIndexD d k dflt).1) k' = alGet d k' := by
  cases hg : alGet d k with
  | none =>
    simp only [alIndexD, hg]
    cases hg' : alGet d k' with
    | none =>
      rw [alGet_append_right _ _ _ hg']
      simp [alGet, Ne.symm h]
    | some w => rw [alGet_append_left _ _ _ _ hg']
  | some v => simp [alIndexD, hg]

theorem nestIndex_snd {α : Type} (d : List (String × List (String × α))) (s a : String)
    (dflt : α) : (nestIndex d s a dflt).2 = nestGet d s a dflt := by
  simp [nestIndex, nestGet, alIndexD_snd]

theorem nestGet_nestIndex_fst {α : Type} (d : List (String × List (String × α)))
    (s a s' a' : String) (dflt : α) :
    nestGet ((nestIndex d s a dflt).1) s' a' dflt = nestGet d s' a' dflt := by
  by_cases hs : s' = s
  · subst hs
    simp only [nestIndex, nestGet]
    rw [alGet_alSet_self]
    by_cases ha : a' = a
    · subst ha
      rw [Option.getD_some, alGet_alIndexD_fst_self, alIndexD_snd, Option.getD_some]
    · rw [Option.getD_some, alGet_alIndexD_fst_ne _ _ _ _ ha, alIndexD_snd]
  · simp only [nestIndex, nestGet]
    rw [alGet_alSet_ne _ _ _ _ hs, alGet_alIndexD_fst_ne _ _ _ _ hs]

theorem nestGet_nestSet_self {α : Type} (d : List (String × List (String × α)))
    (s a : String) (v dflt : α) : nestGet (nestSet d s a v) s a dflt = v := by
  simp only [nestSet, nestGet]
  rw [alGet_alSet_self, Option.getD_some, alGet_alSet_self, Option.getD_some]

/-! ## Lemmas about the reward and the update rule -/

theorem clampUnit_mem (x : ℚ) : -1 ≤ clampUnit x ∧ clampUnit x ≤ 1 :=
  ⟨le_max_left _ _, max_le (by norm_num) (min_le_left _ _)⟩

theorem q_iter_sub (v0 lr r : ℚ) (n : ℕ) :
    q_iter v0 lr r n - r = (v0 - r) * (1 - lr) ^ n := by
  induction n with
  | zero => simp [q_iter]
  | succ n ih =>
    have h : q_iter v0 lr r (n + 1) - r = (1 - lr) * (q_iter v0 lr r n - r) := by
      simp only [q_iter, q_update]; ring
    rw [h, ih, pow_succ]; ring

/-- C2: iterating the update rule `newValue = oldValue + α * (r - oldValue)`
with a fixed reward `r` and learning rate `α ∈ (0, 1]` drives the stored
value monotonically toward `r`, and after `n` repetitions the distance to `r`
is exactly `|value_0 - r| * (1 - α)^n`. -/
theorem c2_update_convergence (v0 lr r : ℚ) (n m : ℕ)
    (hlr0 : 0 < lr) (hlr1 : lr ≤ 1) (hr1 : -1 ≤ r) (hr2 : r ≤ 1) (hn : 1 ≤ n) :
    |q_iter v0 lr r n - r| = |v0 - r| * (1 - lr) ^ n ∧
    |q_iter v0 lr r (m + 1) - r| ≤ |q_iter v0 lr r m - r| := by
  have h1 : (0 : ℚ) ≤ 1 - lr := by linarith
  constructor
  · rw [q_iter_sub, abs_mul, abs_pow, abs_of_nonneg h1]
  · have h2 : q_iter v0 lr r (m + 1) - r = (1 - lr) * (q_iter v0 lr r m - r) := by
      simp only [q_iter, q_update]; ring
    rw [h2, abs_mul, abs_of_nonneg h1]
    exact mul_le_of_le_one_left (abs_nonneg _) (by linarith)

/-- Witness for C2 at `v0 = 0`, `α = 1/2`, `r = 1`, `n = 2`, `m = 1`. -/
theorem c2_update_convergence_witness :
    |q_iter 0 (1/2) 1 2 - 1| = |(0 : ℚ) - 1| * (1 - 1/2) ^ 2 ∧
    |q_iter 0 (1/2) 1 (1 + 1) - 1| ≤ |q_iter 0 (1/2) 1 1 - 1| :=
  c2_update_convergence 0 (1/2) 1 2 1 (by norm_num) (by norm_num) (by norm_num)
    (by norm_num) (by norm_num)

/-- C3: for every engine state and every interaction (any rating or no
rating, any visit count, any success history) the computed reward lies in
`[-1, 1]`, and the clamp to `[-1, 1]` is the final step of the computation. -/
theorem c3_reward_bounds (eng : AdaptiveRLEngine) (interaction : Interaction) :
    (-1 ≤ (calculate_reward eng interaction).2 ∧ (calculate_reward eng interaction).2 ≤ 1) ∧
    (calculate_reward eng interaction).2 = clampUnit (reward_before_clamp eng interaction) :=
  ⟨clampUnit_mem _, rfl⟩

/-! ## Lemmas about the decision path -/

theorem rl_candidate_fst (eng : AdaptiveRLEngine) (state base_intent : String)
    (base_confidence randomDraw : ℚ) (randomChoice : ℕ) :
    (rl_candidate eng state base_intent base_confidence randomDraw randomChoice).1 =
      eng.q_table := by
  cases h : alMem eng.q_table state with
  | false => simp [rl_candidate, h]
  | true => simp [rl_candidate, h, alIndexD_fst_of_mem _ _ _ h]

/-- C9: the decision operation mutates nothing: the engine state returned by
`get_enhanced_intent` (Q-table, visit counters, success histories, user
preferences, buffers and logs) is the input state. -/
theorem c9_decision_no_mutation (eng : AdaptiveRLEngine) (command : String) (hour : ℕ)
    (base_intent : String) (base_confidence randomDraw : ℚ) (randomChoice : ℕ) :
    (get_enhanced_intent eng command hour base_intent base_confidence randomDraw
      randomChoice).1 = eng := by
  have h : (get_enhanced_intent eng command hour base_intent base_confidence randomDraw
      randomChoice).1 =
      { eng with q_table := (rl_candidate eng (get_state_features command hour none)
        base_intent base_confidence randomDraw randomChoice).1 } := rfl
  rw [h, rl_candidate_fst]

/-- C4: the final decision obeys the arbitration precedence of the source:
a base confidence above 0.8 short-circuits to the base prediction; otherwise
a base confidence below 0.3 together with an RL-candidate confidence above
0.6 selects the RL candidate; otherwise the base prediction is returned. -/
theorem c4_arbitration_precedence (eng : AdaptiveRLEngine) (command : String) (hour : ℕ)
    (base_intent : String) (base_confidence randomDraw : ℚ) (randomChoice : ℕ) :
    (4/5 < base_confidence →
      (get_enhanced_intent eng command hour base_intent base_confidence randomDraw
        randomChoice).2 = (base_intent, base_confidence)) ∧
    (base_confidence ≤ 4/5 → base_confidence < 3/10 →
      3/5 < (rl_candidate eng (get_state_features command hour none) base_intent
        base_confidence randomDraw randomChoice).2.2 →
      (get_enhanced_intent eng command hour base_intent base_confidence randomDraw
        randomChoice).2 = (rl_candidate eng (get_state_features command hour none)
        base_intent base_confidence randomDraw randomChoice).2) ∧
    (base_confidence ≤ 4/5 →
      ¬ (base_confidence < 3/10 ∧ 3/5 < (rl_candidate eng
        (get_state_features command hour none) base_intent base_confidence randomDraw
        randomChoice).2.2) →
      (get_enhanced_intent eng command hour base_intent base_confidence randomDraw
        randomChoice).2 = (base_intent, base_confidence)) := by
  have heq : (get_enhanced_intent eng command hour base_intent base_confidence randomDraw
      randomChoice).2 =
      (if base_confidence > 4/5 then (base_intent, base_confidence)
       else if base_confidence < 3/10 ∧ (rl_candidate eng
         (get_state_features command hour none) base_intent base_confidence randomDraw
         randomChoice).2.2 > 3/5 then
         (rl_candidate eng (get_state_features command hour none) base_intent
           base_confidence randomDraw randomChoice).2
       else (base_intent, base_confidence)) := rfl
  refine ⟨fun h => ?_, fun h1 h2 h3 => ?_, fun h1 h2 => ?_⟩
  · rw [heq, if_pos h]
  · rw [heq, if_neg (not_lt.mpr h1), if_pos ⟨h2, h3⟩]
  · rw [heq, if_neg (not_lt.mpr h1), if_neg h2]

/-- Witness for C4: a high-confidence base prediction (0.9) is returned
unchanged on a fresh engine. -/
theorem c4_arbitration_precedence_witness :
    (get_enhanced_intent freshEngine "hello there" 9 "web_search" (9/10) 0 0).2 =
      ("web_search", 9/10) :=
  (c4_arbitration_precedence freshEngine "hello there" 9 "web_search" (9/10) 0 0).1
    (by norm_num)

/-! ## Lemmas about feedback resolution -/

theorem apply_to_last_match_eq_none (l : List Interaction) (arg : String)
    (f : Interaction → Interaction) :
    apply_to_last_match l arg f = none ↔ find_target l arg = none := by
  induction l with
  | nil => simp [apply_to_last_match, find_target]
  | cons i rest ih =>
    simp only [apply_to_last_match, find_target, List.reverse_cons, List.find?_append]
    cases ha : apply_to_last_match rest arg f with
    | some r =>
      have hrest : ¬ find_target rest arg = none := by
        rw [← ih]
        simp [ha]
      rcases Option.ne_none_iff_exists.mp hrest with ⟨x, hx⟩
      simp only [find_target] at hx
      simp [← hx]
    | none =>
      have hrest : find_target rest arg = none := ih.mp ha
      simp only [find_target] at hrest
      simp only [hrest, Option.none_or]
      cases hm : matchesFeedback i arg
      · have hni : List.find? (fun j => matchesFeedback j arg) [i] = none := by
          simp [List.find?, hm]
        simp [hm, hni]
      · have hpi : List.find? (fun j => matchesFeedback j arg) [i] = some i := by
          simp [List.find?, hm]
        simp [hm, hpi]

theorem apply_to_last_match_append (l1 l2 : List Interaction) (arg : String)
    (f : Interaction → Interaction) (l2' : List Interaction) (t : Interaction)
    (h : apply_to_last_match l2 arg f = some (l2', t)) :
    apply_to_last_match (l1 ++ l2) arg f = some (l1 ++ l2', t) := by
  induction l1 with
  | nil => simpa using h
  | cons x xs ih => simp [apply_to_last_match, ih]

theorem apply_to_last_match_pair (iA iB : Interaction) (arg : String)
    (f : Interaction → Interaction) (hB : matchesFeedback iB arg = true) :
    apply_to_last_match [iA, iB] arg f = some ([iA, f iB], f iB) := by
  simp [apply_to_last_match, hB]

theorem record_feedback_of_some (eng : AdaptiveRLEngine) (arg : String) (rating : Int)
    (u : String) (r : List Interaction × Interaction)
    (h1 : 1 ≤ rating) (h5 : rating ≤ 5)
    (hfind : apply_to_last_match eng.recent_interactions arg (feedback_update rating) =
      some r) :
    record_feedback eng arg rating u =
      (record_feedback_apply eng rating u r.1 r.2, FeedbackResult.ok) := by
  simp only [record_feedback]
  rw [if_neg (not_not_intro ⟨h1, h5⟩), hfind]

theorem record_feedback_apply_interactions (eng : AdaptiveRLEngine) (rating : Int)
    (u : String) (buf : List Interaction) (t : Interaction) :
    (record_feedback_apply eng rating u buf t).recent_interactions = buf := rfl

/-- C7: a feedback submission mutates nothing unless it succeeds: an
out-of-range rating is rejected as `invalidRating` with the engine state
returned untouched, and a rating in range whose resolution scan finds no
matching interaction is rejected as `notFound`, again with the engine state
returned untouched. -/
theorem c7_failure_no_mutation (eng : AdaptiveRLEngine) (arg : String) (rating : Int)
    (u : String) :
    ((rating < 1 ∨ 5 < rating) →
      record_feedback eng arg rating u = (eng, FeedbackResult.invalidRating)) ∧
    (1 ≤ rating → rating ≤ 5 → find_target eng.recent_interactions arg = none →
      record_feedback eng arg rating u = (eng, FeedbackResult.notFound)) := by
  constructor
  · intro h
    have hcond : ¬ (1 ≤ rating ∧ rating ≤ 5) := by omega
    simp only [record_feedback]
    rw [if_pos hcond]
  · intro h1 h5 hf
    have hnone : apply_to_last_match eng.recent_interactions arg (feedback_update rating) =
        none := (apply_to_last_match_eq_none _ _ _).mpr hf
    simp only [record_feedback]
    rw [if_neg (not_not_intro ⟨h1, h5⟩), hnone]

/-- Witness for C7: on a fresh engine, rating 7 is rejected as invalid, and
rating 3 with an empty buffer is rejected as not found; both leave the
engine untouched. -/
theorem c7_failure_no_mutation_witness :
    record_feedback freshEngine "x" 7 "u" = (freshEngine, FeedbackResult.invalidRating) ∧
    record_feedback freshEngine "x" 3 "u" = (freshEngine, FeedbackResult.notFound) :=
  ⟨(c7_failure_no_mutation freshEngine "x" 7 "u").1 (Or.inr (by norm_num)),
   (c7_failure_no_mutation freshEngine "x" 3 "u").2 (by norm_num) (by norm_num) rfl⟩

/-- C6: feedback resolution is most-recent-wins: with a buffer ending in two
interactions `iA` then `iB` whose command text is the submitted argument,
the resolution scan returns `iB` (the most recent match), and applying
feedback updates only `iB`, leaving `iA` and the rest of the buffer
untouched. -/
theorem c6_feedback_recency (eng : AdaptiveRLEngine) (rest : List Interaction)
    (iA iB : Interaction) (c u : String) (rating : Int)
    (hbuf : eng.recent_interactions = rest ++ [iA, iB])
    (hB : iB.command = c)
    (h1 : 1 ≤ rating) (h5 : rating ≤ 5) :
    (record_feedback eng c rating u).1.recent_interactions =
      rest ++ [iA, feedback_update rating iB] ∧
    find_target eng.recent_interactions c = some iB := by
  have hmB : matchesFeedback iB c = true := by simp [matchesFeedback, hB]
  have happ : apply_to_last_match eng.recent_interactions c (feedback_update rating) =
      some (rest ++ [iA, feedback_update rating iB], feedback_update rating iB) := by
    rw [hbuf]
    exact apply_to_last_match_append rest [iA, iB] c _ _ _
      (apply_to_last_match_pair iA iB c _ hmB)
  constructor
  · rw [record_feedback_of_some eng c rating u _ h1 h5 happ]
    exact record_feedback_apply_interactions _ _ _ _ _
  · rw [hbuf]
    have hrev : (rest ++ [iA, iB]).reverse = iB :: iA :: rest.reverse := by simp
    simp only [find_target]
    rw [hrev]
    exact List.find?_cons_of_pos _ hmB

/-- Witness for C6: two decisions with the same command text and different
intents; feedback by command text updates only the more recent one. -/
theorem c6_feedback_recency_witness :
    (record_feedback c6_eng "play music" 4 "default").1.recent_interactions =
      [] ++ [c6_iA, feedback_update 4 c6_iB] ∧
    find_target c6_eng.recent_interactions "play music" = some c6_iB :=
  c6_feedback_recency c6_eng [] c6_iA c6_iB "play music" "default" 4 rfl rfl
    (by norm_num) (by norm_num)

/-! ## The end-to-end scenario (C1) -/

set_option maxHeartbeats 2000000 in
/-- C1 counterexample: in the end-to-end scenario (fresh store, command
"schedule meeting tomorrow at 4pm", chosen intent `calendar_event`, feedback
rating 5) the reward is not 0.6 and the updated Value Store entry is not
0.06, contrary to the spec's arithmetic. -/
theorem c1_end_to_end_counterexample :
    ¬ ((calculate_reward c1_eng (feedback_update 5 c1_interaction)).2 = 3/5 ∧
       nestGet (record_feedback c1_eng c1_command 5 "default").1.q_table c1_state
         "calendar_event" 0 = 3/50) := by
  have h1 : (calculate_reward c1_eng (feedback_update 5 c1_interaction)).2 = 1 := by
    norm_num [c1_eng, c1_interaction, c1_command, c1_state, log_interaction,
      get_state_features, pySorted, insertSorted, strLeB, charListLe, strContains,
      listSubstr, listPrefixOf, pySplitWS, splitWSAux, pyLower, freshEngine,
      calculate_reward, reward_before_clamp, clampUnit, feedback_update, nestIndex,
      nestSet, nestGet, alIndexD, alSet, alGet, alMem, pyMean, lastN]
  rintro ⟨ha, hb⟩
  rw [h1] at ha
  norm_num at ha

set_option maxHeartbeats 2000000 in
/-- C1 amended: in the end-to-end scenario the feedback base reward is
`(5-3)/2 = 1.0`, the exploration bonus at visit count 0 is `0.1` and the
success bonus on an empty history is `0`, so the unclamped reward is `1.1`,
clamped to `1.0`, and the Value Store entry for (state, calendar_event) is
updated from `0.0` to `0 + 0.1 * (1.0 - 0) = 0.1`. -/
theorem c1_end_to_end_amended :
    c1_eng.recent_interactions = [c1_interaction] ∧
    get_state_features c1_command 15 none = c1_state ∧
    nestGet c1_eng.q_table c1_state "calendar_event" 0 = 0 ∧
    reward_before_clamp c1_eng (feedback_update 5 c1_interaction) = 11/10 ∧
    (calculate_reward c1_eng (feedback_update 5 c1_interaction)).2 = 1 ∧
    nestGet (record_feedback c1_eng c1_command 5 "default").1.q_table c1_state
      "calendar_event" 0 = 1/10 ∧
    (record_feedback c1_eng c1_command 5 "default").2 = FeedbackResult.ok := by
  refine ⟨by decide, by decide, rfl, ?_, ?_, ?_, ?_⟩ <;>
    norm_num [c1_eng, c1_interaction, c1_command, c1_state, log_interaction,
      get_state_features, pySorted, insertSorted, strLeB, charListLe, strContains,
      listSubstr, listPrefixOf, pySplitWS, splitWSAux, pyLower, freshEngine,
      record_feedback, apply_to_last_match, matchesFeedback, feedback_update,
      record_feedback_apply, update_q_value, calculate_reward, reward_before_clamp,
      clampUnit, q_update, nestIndex, nestSet, nestGet, alIndexD, alSet, alGet,
      alMem, pyMean, lastN]

/-! ## Write-once violation (C8) -/

set_option maxHeartbeats 2000000 in
/-- C8 counterexample: interaction records are not write-once.  After a first
feedback with rating 5, a second feedback submission for the same command
succeeds and overwrites the stored feedback score (5 becomes 1) and success
flag of the same interaction record. -/
theorem c8_write_once_counterexample :
    ((record_feedback c8_eng "check my mail" 5 "default").1.recent_interactions.map
      Interaction.feedback_score = [some 5]) ∧
    ((record_feedback (record_feedback c8_eng "check my mail" 5 "default").1
      "check my mail" 1 "default").1.recent_interactions.map
      Interaction.feedback_score = [some 1]) ∧
    ((record_feedback (record_feedback c8_eng "check my mail" 5 "default").1
      "check my mail" 1 "default").2 = FeedbackResult.ok) := by
  norm_num [c8_eng, c8_i0, freshEngine, record_feedback, apply_to_last_match,
    matchesFeedback, feedback_update, record_feedback_apply, update_q_value,
    calculate_reward, reward_before_clamp, clampUnit, q_update, nestIndex, nestSet,
    nestGet, alIndexD, alSet, alGet, alMem, pyMean, lastN]

/-- C8 amended: each successful feedback application sets the outcome and the
feedback score of the resolved (most recent matching) interaction,
overwriting whatever values were there before — including values written by
an earlier feedback submission targeting the same interaction. -/
theorem c8_feedback_overwrite (eng : AdaptiveRLEngine) (rest : List Interaction)
    (iB : Interaction) (c u : String) (rating : Int)
    (hbuf : eng.recent_interactions = rest ++ [iB])
    (hB : iB.command = c) (h1 : 1 ≤ rating) (h5 : rating ≤ 5) :
    (record_feedback eng c rating u).1.recent_interactions =
      rest ++ [{ iB with feedback_score := some rating,
                         success := some (decide (3 ≤ rating)) }] := by
  have hmB : matchesFeedback iB c = true := by simp [matchesFeedback, hB]
  have hsingle : apply_to_last_match [iB] c (feedback_update rating) =
      some ([feedback_update rating iB], feedback_update rating iB) := by
    simp [apply_to_last_match, hmB]
  have happ : apply_to_last_match eng.recent_interactions c (feedback_update rating) =
      some (rest ++ [feedback_update rating iB], feedback_update rating iB) := by
    rw [hbuf]
    exact apply_to_last_match_append rest [iB] c _ _ _ hsingle
  rw [record_feedback_of_some eng c rating u _ h1 h5 happ]
  exact record_feedback_apply_interactions _ _ _ _ _

/-- Witness for the amended C8: an interaction that already carries feedback
score 5 is overwritten with score 1 by a later submission. -/
theorem c8_feedback_overwrite_witness :
    (record_feedback { freshEngine with
        recent_interactions := [feedback_update 5 c8_i0] } "check my mail" 1
      "default").1.recent_interactions =
      [] ++ [{ feedback_update 5 c8_i0 with feedback_score := some 1, success := some (decide (3 ≤ (1 : Int))) }] :=
  c8_feedback_overwrite _ [] (feedback_update 5 c8_i0) "check my mail" "default" 1
    rfl rfl (by norm_num) (by norm_num)

/-! ## Pre-state reward computation (C10) -/

theorem record_feedback_apply_q (eng : AdaptiveRLEngine) (rating : Int) (u : String)
    (buf : List Interaction) (t : Interaction) :
    (record_feedback_apply eng rating u buf t).q_table =
      (update_q_value { eng with recent_interactions := buf } t).q_table := rfl

theorem update_q_value_q_lookup (e : AdaptiveRLEngine) (t : Interaction) :
    nestGet (update_q_value e t).q_table t.state t.intent 0 =
      q_update (nestGet e.q_table t.state t.intent 0) e.learning_rate
        (calculate_reward e t).2 := by
  have h : (update_q_value e t).q_table =
      nestSet (nestIndex (calculate_reward e t).1.q_table t.state t.intent 0).1 t.state
        t.intent
        (q_update (nestIndex (calculate_reward e t).1.q_table t.state t.intent 0).2
          (calculate_reward e t).1.learning_rate (calculate_reward e t).2) := rfl
  rw [h, nestGet_nestSet_self, nestIndex_snd]
  rfl

theorem update_q_value_counts_lookup (e : AdaptiveRLEngine) (t : Interaction) :
    nestGet (update_q_value e t).state_action_counts t.state t.intent 0 =
      nestGet e.state_action_counts t.state t.intent 0 + 1 := by
  have h : (update_q_value e t).state_action_counts =
      nestSet (nestIndex (calculate_reward e t).1.state_action_counts t.state t.intent 0).1
        t.state t.intent
        ((nestIndex (calculate_reward e t).1.state_action_counts t.state t.intent 0).2
          + 1) := rfl
  rw [h, nestGet_nestSet_self, nestIndex_snd]
  have h2 : (calculate_reward e t).1.state_action_counts =
      (nestIndex e.state_action_counts t.state t.intent 0).1 := rfl
  rw [h2, nestGet_nestIndex_fst]

theorem apply_to_last_match_exists (l : List Interaction) (arg : String)
    (f : Interaction → Interaction) (r : List Interaction × Interaction)
    (h : apply_to_last_match l arg f = some r) : ∃ i, r.2 = f i := by
  induction l generalizing r with
  | nil => simp [apply_to_last_match] at h
  | cons x xs ih =>
    simp only [apply_to_last_match] at h
    cases ha : apply_to_last_match xs arg f with
    | some r' =>
      rw [ha] at h
      simp only [Option.some.injEq] at h
      obtain ⟨i, hi⟩ := ih r' ha
      exact ⟨i, by rw [← h]; exact hi⟩
    | none =>
      rw [ha] at h
      by_cases hm : matchesFeedback x arg
      · rw [if_pos hm] at h
        simp only [Option.some.injEq] at h
        exact ⟨x, by rw [← h]⟩
      · rw [if_neg hm] at h
        simp at h

theorem reward_of_fresh_pair (eng : AdaptiveRLEngine) (t : Interaction) (rating : Int)
    (hfs : t.feedback_score = some rating)
    (hmem : alMem eng.intent_success_rates t.intent = false)
    (hcnt : nestGet eng.state_action_counts t.state t.intent 0 = 0) :
    (calculate_reward eng t).2 = clampUnit (((rating : ℚ) - 3) / 2 + 1/10) := by
  have h2 : (calculate_reward eng t).2 = clampUnit (reward_before_clamp eng t) := rfl
  rw [h2]
  congr 1
  simp only [reward_before_clamp, hfs, hmem, nestIndex_snd, hcnt]
  norm_num

/-- C10: the reward applied by a feedback submission is computed from the
engine state as it was before that feedback's own effects: the new Q-value
is the update rule applied with the reward computed from the pre-feedback
success histories and visit counts, the visit count is incremented only
afterwards, and when the (state, action) pair is fresh (visit count 0, no
success history) the reward receives the full 0.1 exploration bonus on top
of the feedback base `(rating - 3) / 2`. -/
theorem c10_reward_prestate (eng : AdaptiveRLEngine) (arg u : String) (rating : Int)
    (r : List Interaction × Interaction)
    (h1 : 1 ≤ rating) (h5 : rating ≤ 5)
    (hfind : apply_to_last_match eng.recent_interactions arg (feedback_update rating) =
      some r) :
    nestGet (record_feedback eng arg rating u).1.q_table r.2.state r.2.intent 0 =
      q_update (nestGet eng.q_table r.2.state r.2.intent 0) eng.learning_rate
        (calculate_reward eng r.2).2 ∧
    nestGet (record_feedback eng arg rating u).1.state_action_counts r.2.state
      r.2.intent 0 = nestGet eng.state_action_counts r.2.state r.2.intent 0 + 1 ∧
    (nestGet eng.state_action_counts r.2.state r.2.intent 0 = 0 →
     alMem eng.intent_success_rates r.2.intent = false →
     (calculate_reward eng r.2).2 = clampUnit (((rating : ℚ) - 3) / 2 + 1/10)) := by
  rw [record_feedback_of_some eng arg rating u r h1 h5 hfind]
  refine ⟨?_, ?_, ?_⟩
  · exact update_q_value_q_lookup { eng with recent_interactions := r.1 } r.2
  · exact update_q_value_counts_lookup { eng with recent_interactions := r.1 } r.2
  · intro hcnt hmem
    obtain ⟨i, hi⟩ := apply_to_last_match_exists _ _ _ _ hfind
    have hfs : r.2.feedback_score = some rating := by rw [hi]; rfl
    exact reward_of_fresh_pair eng r.2 rating hfs hmem hcnt

/-- Witness for C10 on a fresh (state, action) pair with rating 4. -/
theorem c10_reward_prestate_witness :
    nestGet (record_feedback c10_eng "find a recipe" 4 "u").1.q_table
      (feedback_update 4 c10_i0).state (feedback_update 4 c10_i0).intent 0 =
      q_update (nestGet c10_eng.q_table (feedback_update 4 c10_i0).state
        (feedback_update 4 c10_i0).intent 0) c10_eng.learning_rate
        (calculate_reward c10_eng (feedback_update 4 c10_i0)).2 ∧
    nestGet (record_feedback c10_eng "find a recipe" 4 "u").1.state_action_counts
      (feedback_update 4 c10_i0).state (feedback_update 4 c10_i0).intent 0 =
      nestGet c10_eng.state_action_counts (feedback_update 4 c10_i0).state
        (feedback_update 4 c10_i0).intent 0 + 1 ∧
    (nestGet c10_eng.state_action_counts (feedback_update 4 c10_i0).state
      (feedback_update 4 c10_i0).intent 0 = 0 →
     alMem c10_eng.intent_success_rates (feedback_update 4 c10_i0).intent = false →
     (calculate_reward c10_eng (feedback_update 4 c10_i0)).2 =
       clampUnit ((((4 : Int) : ℚ) - 3) / 2 + 1/10)) := by
  exact c10_reward_prestate c10_eng "find a recipe" "u" 4
    ([feedback_update 4 c10_i0], feedback_update 4 c10_i0)
    (by norm_num) (by norm_num) (by decide)

/-! ## Round-trip persistence (C5) -/

theorem alGet_none_of_not_mem {α : Type} (d : List (String × α)) (k : String)
    (h : k ∉ d.map Prod.fst) : alGet d k = none := by
  induction d with
  | nil => simp [alGet]
  | cons p rest ih =>
    simp only [List.map_cons, List.mem_cons, not_or] at h
    simp [alGet, Ne.symm h.1, ih h.2]

theorem alGet_append_singleton_ne {α : Type} (acc : List (String × α)) (k0 : String)
    (w : α) (s : String) (h : k0 ≠ s) : alGet (acc ++ [(k0, w)]) s = alGet acc s := by
  cases hacc : alGet acc s with
  | some x => exact alGet_append_left _ _ _ _ hacc
  | none =>
    rw [alGet_append_right _ _ _ hacc]
    simp [alGet, h]

theorem alSet_of_none {α : Type} (d : List (String × α)) (k : String) (v : α)
    (h : alGet d k = none) : alSet d k v = d ++ [(k, v)] := by
  induction d with
  | nil => simp [alSet]
  | cons p rest ih =>
    by_cases hp : p.1 = k
    · simp [alGet, hp] at h
    · simp only [alGet, hp, if_neg hp, if_false] at h
      simp [alSet, hp, ih h]

theorem alSet_append_of_none {α : Type} (d1 d2 : List (String × α)) (k : String) (v : α)
    (h : alGet d1 k = none) : alSet (d1 ++ d2) k v = d1 ++ alSet d2 k v := by
  induction d1 with
  | nil => simp
  | cons p rest ih =>
    by_cases hp : p.1 = k
    · simp [alGet, hp] at h
    · simp only [alGet, hp, if_neg hp, if_false] at h
      simp [alSet, hp, ih h]

theorem foldl_alSet_disjoint {α : Type} (l : List (String × α)) :
    ∀ acc : List (String × α), (l.map Prod.fst).Nodup →
    (∀ p ∈ l, alGet acc p.1 = none) →
    l.foldl (fun ac p => alSet ac p.1 p.2) acc = acc ++ l := by
  induction l with
  | nil => intro acc _ _; simp
  | cons x xs ih =>
    intro acc hnd hdis
    simp only [List.foldl_cons]
    have hx : alGet acc x.1 = none := hdis x (List.mem_cons_self _ _)
    rw [alSet_of_none _ _ _ hx]
    simp only [List.map_cons, List.nodup_cons] at hnd
    have hdis' : ∀ p ∈ xs, alGet (acc ++ [(x.1, x.2)]) p.1 = none := by
      intro p hp
      have hne : x.1 ≠ p.1 := by
        intro hh
        exact hnd.1 (hh ▸ List.mem_map_of_mem Prod.fst hp)
      rw [alGet_append_singleton_ne _ _ _ _ hne]
      exact hdis p (List.mem_cons_of_mem _ hp)
    rw [ih (acc ++ [(x.1, x.2)]) hnd.2 hdis']
    simp

theorem nestSet_fresh {α : Type} (acc : List (String × List (String × α))) (s a : String)
    (v : α) (h : alGet acc s = none) : nestSet acc s a v = acc ++ [(s, [(a, v)])] := by
  simp only [nestSet, alIndexD, h]
  rw [alSet_append_of_none _ _ _ _ h]
  simp [alSet]

theorem nestSet_snoc {α : Type} (acc : List (String × List (String × α))) (s a : String)
    (cur : List (String × α)) (v : α) (h : alGet acc s = none) :
    nestSet (acc ++ [(s, cur)]) s a v = acc ++ [(s, alSet cur a v)] := by
  have hget : alGet (acc ++ [(s, cur)]) s = some cur := by
    rw [alGet_append_right _ _ _ h]
    simp [alGet]
  simp only [nestSet, alIndexD, hget]
  rw [alSet_append_of_none _ _ _ _ h]
  simp [alSet]

theorem foldl_nestSet_snoc {α : Type} (items : List (String × α)) :
    ∀ (acc : List (String × List (String × α))) (s : String) (cur : List (String × α)),
    alGet acc s = none →
    items.foldl (fun ac p => nestSet ac s p.1 p.2) (acc ++ [(s, cur)]) =
      acc ++ [(s, items.foldl (fun c p => alSet c p.1 p.2) cur)] := by
  induction items with
  | nil => intro acc s cur _; simp
  | cons b bs ih =>
    intro acc s cur h
    simp only [List.foldl_cons]
    rw [nestSet_snoc _ _ _ _ _ h]
    exact ih acc s (alSet cur b.1 b.2) h

theorem foldl_nestSet_inner_cons {α : Type} (b : String × α) (bs : List (String × α))
    (acc : List (String × List (String × α))) (s : String)
    (h : alGet acc s = none) (hnd : ((b :: bs).map Prod.fst).Nodup) :
    (b :: bs).foldl (fun ac p => nestSet ac s p.1 p.2) acc = acc ++ [(s, b :: bs)] := by
  simp only [List.foldl_cons]
  rw [nestSet_fresh _ _ _ _ h]
  rw [foldl_nestSet_snoc bs acc s [(b.1, b.2)] h]
  simp only [List.map_cons, List.nodup_cons] at hnd
  have hdis : ∀ p ∈ bs, alGet [(b.1, b.2)] p.1 = none := by
    intro p hp
    have hne : b.1 ≠ p.1 := by
      intro hh
      exact hnd.1 (hh ▸ List.mem_map_of_mem Prod.fst hp)
    simp [alGet, hne]
  rw [foldl_alSet_disjoint bs [(b.1, b.2)] hnd.2 hdis]
  simp

theorem foldl_load_lookup {α : Type} (entries : List (String × List (String × α))) :
    ∀ acc : List (String × List (String × α)),
    (entries.map Prod.fst).Nodup →
    (∀ p ∈ entries, (p.2.map Prod.fst).Nodup) →
    (∀ p ∈ entries, alGet acc p.1 = none) →
    ∀ (s a : String) (dflt : α),
    nestGet (entries.foldl
      (fun ac p => p.2.foldl (fun ac2 q => nestSet ac2 p.1 q.1 q.2) ac) acc) s a dflt =
      (match alGet entries s with
       | some inner => (alGet inner a).getD dflt
       | none => nestGet acc s a dflt) := by
  induction entries with
  | nil => intro acc _ _ _ s a dflt; simp [alGet]
  | cons e rest ih =>
    intro acc hnd hinner hdis s a dflt
    simp only [List.foldl_cons]
    have hgete : alGet acc e.1 = none := hdis e (List.mem_cons_self _ _)
    have hndE : (e.2.map Prod.fst).Nodup := hinner e (List.mem_cons_self _ _)
    simp only [List.map_cons, List.nodup_cons] at hnd
    have hinner' : ∀ p ∈ rest, (p.2.map Prod.fst).Nodup :=
      fun p hp => hinner p (List.mem_cons_of_mem _ hp)
    have hrest_of_eq : e.1 = s → alGet rest s = none := by
      intro hs
      apply alGet_none_of_not_mem
      intro hmem
      exact hnd.1 (hs ▸ hmem)
    cases he : e.2 with
    | nil =>
      simp only [List.foldl_nil]
      have hdis' : ∀ p ∈ rest, alGet acc p.1 = none :=
        fun p hp => hdis p (List.mem_cons_of_mem _ hp)
      rw [ih acc hnd.2 hinner' hdis' s a dflt]
      by_cases hs : e.1 = s
      · rw [hrest_of_eq hs]
        have haccs : alGet acc s = none := hs ▸ hgete
        simp [alGet, hs, he, nestGet, haccs]
      · simp [alGet, hs]
    | cons b bs =>
      rw [foldl_nestSet_inner_cons b bs acc e.1 hgete (he ▸ hndE)]
      have hdis' : ∀ p ∈ rest, alGet (acc ++ [(e.1, b :: bs)]) p.1 = none := by
        intro p hp
        have hne : e.1 ≠ p.1 := by
          intro hh
          exact hnd.1 (hh ▸ List.mem_map_of_mem Prod.fst hp)
        rw [alGet_append_singleton_ne _ _ _ _ hne]
        exact hdis p (List.mem_cons_of_mem _ hp)
      rw [ih (acc ++ [(e.1, b :: bs)]) hnd.2 hinner' hdis' s a dflt]
      by_cases hs : e.1 = s
      · rw [hrest_of_eq hs]
        have haccs : alGet acc s = none := hs ▸ hgete
        have hsnoc : alGet (acc ++ [(e.1, b :: bs)]) s = some (b :: bs) := by
          rw [alGet_append_right _ _ _ haccs]
          simp [alGet, hs]
        rw [hs] at hsnoc
        simp [alGet, hs, he, nestGet, hsnoc]
      · have hsnoc : alGet (acc ++ [(e.1, b :: bs)]) s = alGet acc s :=
          alGet_append_singleton_ne _ _ _ _ hs
        simp [alGet, hs, nestGet, hsnoc]

/-- C5: a save/load round trip reconstructs the Value Store and the visit
counters value-for-value and count-for-count: for every engine whose nested
tables are well-formed dicts (no duplicate keys, as Python dicts guarantee)
and every (state, action) pair, the reloaded store answers every lookup
(default 0.0 for unseen value, 0 for unseen count) exactly as the original. -/
theorem c5_save_load_roundtrip (eng eng0 : AdaptiveRLEngine) (s a : String)
    (hq1 : (eng.q_table.map Prod.fst).Nodup)
    (hq2 : ∀ p ∈ eng.q_table, (p.2.map Prod.fst).Nodup)
    (hc1 : (eng.state_action_counts.map Prod.fst).Nodup)
    (hc2 : ∀ p ∈ eng.state_action_counts, (p.2.map Prod.fst).Nodup) :
    nestGet (load_model eng0 (save_model eng)).q_table s a 0 =
      nestGet eng.q_table s a 0 ∧
    nestGet (load_model eng0 (save_model eng)).state_action_counts s a 0 =
      nestGet eng.state_action_counts s a 0 := by
  constructor
  · have h : (load_model eng0 (save_model eng)).q_table =
        eng.q_table.foldl
          (fun ac p => p.2.foldl (fun ac2 q => nestSet ac2 p.1 q.1 q.2) ac) [] := rfl
    rw [h, foldl_load_lookup eng.q_table [] hq1 hq2 (fun p _ => rfl) s a 0]
    cases hg : alGet eng.q_table s with
    | some inner => simp [nestGet, hg]
    | none => simp [nestGet, hg, alGet]
  · have h : (load_model eng0 (save_model eng)).state_action_counts =
        eng.state_action_counts.foldl
          (fun ac p => p.2.foldl (fun ac2 q => nestSet ac2 p.1 q.1 q.2) ac) [] := rfl
    rw [h, foldl_load_lookup eng.state_action_counts [] hc1 hc2 (fun p _ => rfl) s a 0]
    cases hg : alGet eng.state_action_counts s with
    | some inner => simp [nestGet, hg]
    | none => simp [nestGet, hg, alGet]

/-- Witness for C5 on a store with three states and two actions each. -/
theorem c5_save_load_roundtrip_witness :
    nestGet (load_model freshEngine (save_model c5_eng)).q_table "s2" "a2" 0 =
      nestGet c5_eng.q_table "s2" "a2" 0 ∧
    nestGet (load_model freshEngine (save_model c5_eng)).state_action_counts "s2" "a2" 0 =
      nestGet c5_eng.state_action_counts "s2" "a2" 0 :=
  c5_save_load_roundtrip c5_eng freshEngine "s2" "a2" (by decide) (by decide)
    (by decide) (by decide)

end Production
